import Mathlib

/-!
# MotorL: drive-motor state estimator

Shallow embedding of `src/Firmware/sub/MotorL/MotorL.cpp`.

The file-scoped variables of namespace `MotorL` (`angle`, `velocity`,
`init_complete`) together with the objects it owns (`encoder`, `angle_diff`,
`motor`) and the IMU it reads form the record `World`; every function of the
module is a function from `World` to `World` (accessors also return a value).

The collaborators' classes (`QuadEncoder`, `LTIFilter`, `HBridge`, `Imu`), the
constant `MotorConfig::direction` and the Arduino core are not part of the
translated file.  Their state types and methods are parameters (`Externals`),
so everything proved below holds for every behaviour they may have.  The scalar
type `F` stands for the C++ `float` with its multiplication and subtraction;
it is a parameter as well, and `Binary32` below is the instance the program
runs with.

Besides the collaborators' states the world carries ghost call logs, one per
collaborator, listing oldest first every call the module has made on it.  The
logs are per collaborator because C++ does not order the two reads inside the
expression of `update` with respect to each other.
-/

namespace MotorL

/-! ## Arduino core vocabulary used by `init` -/

/-- Pin modes accepted by the Arduino call `pinMode`. -/
inductive PinMode
  | INPUT
  | OUTPUT
  | INPUT_PULLUP
  deriving DecidableEq, Repr

/-- Logic levels accepted by the Arduino call `digitalWrite`. -/
inductive PinLevel
  | LOW
  | HIGH
  deriving DecidableEq, Repr

/-- Trigger modes accepted by the Arduino call `attachInterrupt`. -/
inductive IntMode
  | LOW
  | CHANGE
  | RISING
  | FALLING
  deriving DecidableEq, Repr

/-- The two private interrupt service routines of the module (lines 49-50). -/
inductive Handler
  | isr_A
  | isr_B
  deriving DecidableEq, Repr

/-- One call into the Arduino core, with its arguments. -/
inductive HwCall
  | pinMode (pin : Nat) (mode : PinMode)
  | digitalWrite (pin : Nat) (val : PinLevel)
  | attachInterrupt (interrupt : Int) (handler : Handler) (mode : IntMode)
  deriving DecidableEq, Repr

/-- One call on the `encoder` object. -/
inductive EncoderCall
  | get_angle
  | interrupt_A
  | interrupt_B
  deriving DecidableEq, Repr

/-! ## Pin definitions (lines 22-27) -/

/-- H-bridge enable. -/
def pin_enable : Nat := 8
/-- H-bridge PWM. -/
def pin_pwm : Nat := 9
/-- H-bridge forward enable. -/
def pin_fwd : Nat := 6
/-- H-bridge reverse enable. -/
def pin_rev : Nat := 7
/-- Encoder channel A. -/
def pin_enc_a : Nat := 2
/-- Encoder channel B. -/
def pin_enc_b : Nat := 3

/-! ## Collaborators and state -/

/-- Everything `MotorL.cpp` uses but does not define: the direction constant,
the Arduino pin-to-interrupt map and the methods of the collaborating objects,
each as a function on that object's state. -/
structure Externals (F Enc Fil Drv Imu : Type) where
  /-- The constant `MotorConfig::direction`. -/
  direction : F
  /-- The Arduino map `digitalPinToInterrupt`. -/
  digitalPinToInterrupt : Nat → Int
  /-- The method `QuadEncoder::get_angle`: returned angle and new encoder state. -/
  encoder_get_angle : Enc → F × Enc
  /-- The method `QuadEncoder::interrupt_A`. -/
  encoder_interrupt_A : Enc → Enc
  /-- The method `QuadEncoder::interrupt_B`. -/
  encoder_interrupt_B : Enc → Enc
  /-- The method `LTIFilter::update`: returned output and new filter state. -/
  angle_diff_update : Fil → F → F × Fil
  /-- The method `HBridge::set_voltage`. -/
  motor_set_voltage : Drv → F → Drv
  /-- The function `Imu::get_pitch`: returned pitch and new IMU state. -/
  imu_get_pitch : Imu → F × Imu

/-- The state `MotorL.cpp` reads and writes. -/
structure World (F Enc Fil Drv Imu : Type) where
  /-- Encoder angle [rad] (line 42). -/
  angle : F
  /-- Angular velocity [rad/s] (line 43). -/
  velocity : F
  /-- Init flag (line 46). -/
  init_complete : Bool
  /-- State of the object `encoder` (line 36). -/
  encoder : Enc
  /-- State of the object `angle_diff` (line 39). -/
  angle_diff : Fil
  /-- State of the object `motor` (line 33). -/
  motor : Drv
  /-- State of the namespace `Imu`. -/
  imu : Imu
  /-- Ghost log: calls into the Arduino core made by the functions below. -/
  hw_calls : List HwCall
  /-- Ghost log: calls on `encoder`. -/
  encoder_calls : List EncoderCall
  /-- Ghost log: the argument of every `angle_diff.update` call. -/
  angle_diff_calls : List F
  /-- Ghost log: the argument of every `motor.set_voltage` call. -/
  motor_calls : List F
  /-- Ghost log: the number of `Imu::get_pitch` calls. -/
  imu_calls : Nat

variable {F Enc Fil Drv Imu : Type}

/-- The world at program start: statics are zero-initialised, the flag is
`false` (line 46), nothing has been called yet; the collaborators start in the
states their constructors leave them in. -/
def World.initial [Zero F] (enc : Enc) (fil : Fil) (drv : Drv) (imu : Imu) :
    World F Enc Fil Drv Imu :=
  { angle := 0
    velocity := 0
    init_complete := false
    encoder := enc
    angle_diff := fil
    motor := drv
    imu := imu
    hw_calls := []
    encoder_calls := []
    angle_diff_calls := []
    motor_calls := []
    imu_calls := 0 }

/-- Perform one call into the Arduino core. -/
def hw (c : HwCall) (w : World F Enc Fil Drv Imu) : World F Enc Fil Drv Imu :=
  { w with hw_calls := w.hw_calls ++ [c] }

/-! ## The functions of the module -/

/-- The function `MotorL::init` (lines 58-73). -/
def init (X : Externals F Enc Fil Drv Imu) (w : World F Enc Fil Drv Imu) :
    World F Enc Fil Drv Imu :=
  if !w.init_complete then
    -- Enable motor driver
    let w1 := hw (HwCall.pinMode pin_enable PinMode.OUTPUT) w
    let w2 := hw (HwCall.digitalWrite pin_enable PinLevel.HIGH) w1
    -- Init encoder interrupts
    let w3 := hw (HwCall.attachInterrupt (X.digitalPinToInterrupt pin_enc_a)
      Handler.isr_A IntMode.CHANGE) w2
    let w4 := hw (HwCall.attachInterrupt (X.digitalPinToInterrupt pin_enc_b)
      Handler.isr_B IntMode.CHANGE) w3
    -- Set init flag
    { w4 with init_complete := true }
  else
    w

/-- First statement of `MotorL::update` (line 80):
`angle = MotorConfig::direction * encoder.get_angle() - Imu::get_pitch();` -/
def update_angle [Mul F] [Sub F] (X : Externals F Enc Fil Drv Imu)
    (w : World F Enc Fil Drv Imu) : World F Enc Fil Drv Imu :=
  { w with
    angle := X.direction * (X.encoder_get_angle w.encoder).1 - (X.imu_get_pitch w.imu).1
    encoder := (X.encoder_get_angle w.encoder).2
    encoder_calls := w.encoder_calls ++ [EncoderCall.get_angle]
    imu := (X.imu_get_pitch w.imu).2
    imu_calls := w.imu_calls + 1 }

/-- Second statement of `MotorL::update` (line 81):
`velocity = angle_diff.update(angle);` -/
def update_velocity (X : Externals F Enc Fil Drv Imu)
    (w : World F Enc Fil Drv Imu) : World F Enc Fil Drv Imu :=
  { w with
    velocity := (X.angle_diff_update w.angle_diff w.angle).1
    angle_diff := (X.angle_diff_update w.angle_diff w.angle).2
    angle_diff_calls := w.angle_diff_calls ++ [w.angle] }

/-- The function `MotorL::update` (lines 78-82): its two statements in order. -/
def update [Mul F] [Sub F] (X : Externals F Enc Fil Drv Imu)
    (w : World F Enc Fil Drv Imu) : World F Enc Fil Drv Imu :=
  update_velocity X (update_angle X w)

/-- The function `MotorL::set_voltage` (lines 87-90). -/
def set_voltage [Mul F] (X : Externals F Enc Fil Drv Imu) (v_cmd : F)
    (w : World F Enc Fil Drv Imu) : World F Enc Fil Drv Imu :=
  { w with
    motor := X.motor_set_voltage w.motor (X.direction * v_cmd)
    motor_calls := w.motor_calls ++ [X.direction * v_cmd] }

/-- The function `MotorL::get_angle` (lines 95-98): returned value and world
after the call. -/
def get_angle (w : World F Enc Fil Drv Imu) : F × World F Enc Fil Drv Imu :=
  (w.angle, w)

/-- The function `MotorL::get_velocity` (lines 103-106): returned value and
world after the call. -/
def get_velocity (w : World F Enc Fil Drv Imu) : F × World F Enc Fil Drv Imu :=
  (w.velocity, w)

/-- The function `MotorL::isr_A` (lines 111-114). -/
def isr_A (X : Externals F Enc Fil Drv Imu) (w : World F Enc Fil Drv Imu) :
    World F Enc Fil Drv Imu :=
  { w with
    encoder := X.encoder_interrupt_A w.encoder
    encoder_calls := w.encoder_calls ++ [EncoderCall.interrupt_A] }

/-- The function `MotorL::isr_B` (lines 119-122). -/
def isr_B (X : Externals F Enc Fil Drv Imu) (w : World F Enc Fil Drv Imu) :
    World F Enc Fil Drv Imu :=
  { w with
    encoder := X.encoder_interrupt_B w.encoder
    encoder_calls := w.encoder_calls ++ [EncoderCall.interrupt_B] }

/-! ## Call sequences -/

/-- One call of a function of the module, with its argument. -/
inductive Op (F : Type)
  | init
  | update
  | set_voltage (v_cmd : F)
  | get_angle
  | get_velocity
  | isr_A
  | isr_B

/-- The world after one call. -/
def step [Mul F] [Sub F] (X : Externals F Enc Fil Drv Imu) (o : Op F)
    (w : World F Enc Fil Drv Imu) : World F Enc Fil Drv Imu :=
  match o with
  | Op.init => init X w
  | Op.update => update X w
  | Op.set_voltage v_cmd => set_voltage X v_cmd w
  | Op.get_angle => (get_angle w).2
  | Op.get_velocity => (get_velocity w).2
  | Op.isr_A => isr_A X w
  | Op.isr_B => isr_B X w

/-- The world after a sequence of calls, first call first. -/
def run [Mul F] [Sub F] (X : Externals F Enc Fil Drv Imu) (ops : List (Op F))
    (w : World F Enc Fil Drv Imu) : World F Enc Fil Drv Imu :=
  ops.foldl (fun acc o => step X o acc) w

/-- Whether a call sequence contains a call of `init`. -/
def calls_init : List (Op F) → Bool
  | [] => false
  | Op.init :: _ => true
  | _ :: rest => calls_init rest

/-- The number of `attachInterrupt` calls in a log that register handler `h`. -/
def attach_count (h : Handler) : List HwCall → Nat
  | [] => 0
  | HwCall.attachInterrupt _ h1 _ :: rest =>
    (if h1 = h then 1 else 0) + attach_count h rest
  | _ :: rest => attach_count h rest

/-- The Arduino calls `init` makes when it runs its body, in order. -/
def init_sequence (X : Externals F Enc Fil Drv Imu) : List HwCall :=
  [ HwCall.pinMode 8 PinMode.OUTPUT,
    HwCall.digitalWrite 8 PinLevel.HIGH,
    HwCall.attachInterrupt (X.digitalPinToInterrupt 2) Handler.isr_A IntMode.CHANGE,
    HwCall.attachInterrupt (X.digitalPinToInterrupt 3) Handler.isr_B IntMode.CHANGE ]

/-- What a reader sees: the pair returned by `get_angle` and `get_velocity`. -/
def published (w : World F Enc Fil Drv Imu) : F × F :=
  ((get_angle w).1, (get_velocity w).1)

/-- The worlds a reader can observe around one `update` call when it may run
before the call, between its two statements, or after it. -/
def update_observable [Mul F] [Sub F] (X : Externals F Enc Fil Drv Imu)
    (w : World F Enc Fil Drv Imu) : List (World F Enc Fil Drv Imu) :=
  [w, update_angle X w, update_velocity X (update_angle X w)]

/-! ## The arithmetic of `float`

The variables `angle` and `velocity` (lines 42-43) are C++ `float`s: IEEE 754
binary32 values, every operation rounded to nearest with ties to even.  A
finite binary32 value is an integer multiple of `2^-149` of magnitude below
`2^128`; it is represented by that integer.  The two zeros are identified, and
the infinities and NaN are collapsed into one value `nonfinite`, which both
operations propagate. -/

/-- A binary32 value: `finite k` is the number `k * 2^-149`. -/
inductive Binary32
  | finite (k : Int)
  | nonfinite
  deriving DecidableEq, Repr

/-- Number of binary digits of `n`, with `n` itself as recursion bound (each
step halves `n`, so the bound is never reached before `n` is `0`). -/
def bit_length_aux : Nat → Nat → Nat
  | 0, _ => 0
  | fuel + 1, n => if n = 0 then 0 else bit_length_aux fuel (n / 2) + 1

/-- Number of binary digits of `n` (`0` for `0`). -/
def bit_length (n : Nat) : Nat := bit_length_aux n n

/-- The integer nearest to `n / d`, the even one of the two when `n / d` lies
halfway between them. -/
def rne_div (n d : Nat) : Nat :=
  if 2 * (n % d) > d ∨ (2 * (n % d) = d ∧ (n / d) % 2 = 1) then n / d + 1 else n / d

/-- The binary32 value nearest to the rational `num / den` (`den` positive),
ties to even: the magnitude is taken in units of `2^-149`, the rounding step is
`2^shift` units where `shift` leaves 24 significant bits (and is `0` in the
subnormal range), and a rounded magnitude of `2^128` or more overflows. -/
def round32 (num : Int) (den : Nat) : Binary32 :=
  let n := num.natAbs * 2 ^ 149
  let shift := bit_length (n / den) - 24
  let k := rne_div n (den * 2 ^ shift) * 2 ^ shift
  if k ≥ 2 ^ 277 then Binary32.nonfinite
  else Binary32.finite (if num < 0 then -(k : Int) else (k : Int))

/-- Binary32 multiplication: the exact product, rounded. -/
def Binary32.mul : Binary32 → Binary32 → Binary32
  | Binary32.finite a, Binary32.finite b => round32 (a * b) (2 ^ 298)
  | _, _ => Binary32.nonfinite

/-- Binary32 subtraction: the exact difference, rounded. -/
def Binary32.sub : Binary32 → Binary32 → Binary32
  | Binary32.finite a, Binary32.finite b => round32 (a - b) (2 ^ 149)
  | _, _ => Binary32.nonfinite

instance : Mul Binary32 := ⟨Binary32.mul⟩

instance : Sub Binary32 := ⟨Binary32.sub⟩

instance : Zero Binary32 := ⟨Binary32.finite 0⟩

/-- The rational number a finite binary32 value denotes. -/
def Binary32.toRat : Binary32 → Option ℚ
  | Binary32.finite k => some ((k : ℚ) / 2 ^ 149)
  | Binary32.nonfinite => none

/-! ## A concrete set of collaborators over exact rationals

Used to evaluate the module on concrete inputs: the encoder state is its
accumulated angle (each edge advances it by one hundredth of a radian), the
filter is the first difference scaled by a control rate of 100 Hz (its state is
the previous sample), the driver state is the last voltage it was given, and
the IMU state is the current pitch.  The theorems about the module quantify
over all collaborators; this instance only supplies concrete inputs. -/

/-- Example collaborators with direction sign `dir`. -/
def demo (dir : ℚ) : Externals ℚ ℚ ℚ ℚ ℚ :=
  { direction := dir
    digitalPinToInterrupt := fun pin => if pin = 2 then 0 else if pin = 3 then 1 else -1
    encoder_get_angle := fun e => (e, e)
    encoder_interrupt_A := fun e => e + 1 / 100
    encoder_interrupt_B := fun e => e + 1 / 100
    angle_diff_update := fun prev x => (100 * (x - prev), x)
    motor_set_voltage := fun _ v => v
    imu_get_pitch := fun p => (p, p) }

/-- Example start world: encoder at `r` radians, IMU pitch `p` radians. -/
def demo_world (r p : ℚ) : World ℚ ℚ ℚ ℚ ℚ :=
  World.initial r 0 0 p

/-- A world in the middle of operation: one edge, one `update` (the first
control period), then two more edges before the next `update`. -/
def demo_second_period : World ℚ ℚ ℚ ℚ ℚ :=
  run (demo 1) [Op.isr_A, Op.update, Op.isr_A, Op.isr_A] (demo_world 0 0)

/-- The same example collaborators computing in binary32: direction sign
`dir`, each edge advances the encoder by the float nearest `0.01`, the filter
is the first difference scaled by `100`. -/
def demo32 (dir : Binary32) : Externals Binary32 Binary32 Binary32 Binary32 Binary32 :=
  { direction := dir
    digitalPinToInterrupt := fun pin => if pin = 2 then 0 else if pin = 3 then 1 else -1
    encoder_get_angle := fun e => (e, e)
    encoder_interrupt_A := fun e => round32 1 1 * e - round32 (-1) 100
    encoder_interrupt_B := fun e => round32 1 1 * e - round32 (-1) 100
    angle_diff_update := fun prev x => (round32 100 1 * (x - prev), x)
    motor_set_voltage := fun _ v => v
    imu_get_pitch := fun p => (p, p) }

/-- Example binary32 start world: encoder at `r` radians, IMU pitch `p` radians. -/
def demo32_world (r p : Binary32) : World Binary32 Binary32 Binary32 Binary32 Binary32 :=
  World.initial r (Binary32.finite 0) (Binary32.finite 0) p

/-! ## Basic facts about the functions -/

section Facts

variable (X : Externals F Enc Fil Drv Imu) (w : World F Enc Fil Drv Imu)

theorem init_of_not_complete (h : w.init_complete = false) :
    init X w = { w with hw_calls := w.hw_calls ++ init_sequence X, init_complete := true } := by
  simp [init, hw, init_sequence, h, pin_enable, pin_enc_a, pin_enc_b]

theorem init_of_complete (h : w.init_complete = true) : init X w = w := by
  simp [init, h]

theorem init_init_complete : (init X w).init_complete = true := by
  cases h : w.init_complete
  · rw [init_of_not_complete X w h]
  · rw [init_of_complete X w h, h]

theorem iterate_init (n : Nat) : (init X)^[n + 1] w = init X w := by
  induction n with
  | zero => rfl
  | succ k ih =>
    rw [Function.iterate_succ_apply', ih]
    exact init_of_complete X _ (init_init_complete X w)

theorem calls_init_cons (o : Op F) (ops : List (Op F)) :
    calls_init (o :: ops) = (calls_init [o] || calls_init ops) := by
  cases o <;> simp [calls_init]

theorem calls_init_iff (ops : List (Op F)) : calls_init ops = true ↔ Op.init ∈ ops := by
  induction ops with
  | nil => simp [calls_init]
  | cons o rest ih =>
    rw [calls_init_cons, Bool.or_eq_true, ih, List.mem_cons]
    cases o <;> simp [calls_init]

theorem attach_count_append (h : Handler) (l1 l2 : List HwCall) :
    attach_count h (l1 ++ l2) = attach_count h l1 + attach_count h l2 := by
  induction l1 with
  | nil => simp [attach_count]
  | cons c rest ih =>
    cases c <;> simp [attach_count, ih, Nat.add_assoc]

theorem attach_count_init_sequence (h : Handler) : attach_count h (init_sequence X) = 1 := by
  cases h <;> simp [init_sequence, attach_count]

variable [Mul F] [Sub F]

theorem step_init_complete (o : Op F) :
    (step X o w).init_complete = (w.init_complete || calls_init [o]) := by
  cases o <;>
    simp [step, calls_init, init_init_complete, update, update_velocity, update_angle,
      set_voltage, get_angle, get_velocity, isr_A, isr_B]

theorem step_hw_calls (o : Op F) :
    (step X o w).hw_calls =
      w.hw_calls ++ (if calls_init [o] && !w.init_complete then init_sequence X else []) := by
  cases o
  case init =>
    cases h : w.init_complete
    · simp [step, calls_init, init_of_not_complete X w h]
    · simp [step, calls_init, init_of_complete X w h]
  all_goals
    simp [step, calls_init, update, update_velocity, update_angle, set_voltage, get_angle,
      get_velocity, isr_A, isr_B]

theorem run_nil : run X [] w = w := rfl

theorem run_cons (o : Op F) (ops : List (Op F)) :
    run X (o :: ops) w = run X ops (step X o w) := rfl

theorem run_init_complete (ops : List (Op F)) :
    (run X ops w).init_complete = (w.init_complete || calls_init ops) := by
  induction ops generalizing w with
  | nil => simp [run_nil, calls_init]
  | cons o rest ih =>
    rw [run_cons, ih, step_init_complete, calls_init_cons o rest, Bool.or_assoc]

theorem run_hw_calls (ops : List (Op F)) :
    (run X ops w).hw_calls =
      w.hw_calls ++ (if calls_init ops && !w.init_complete then init_sequence X else []) := by
  induction ops generalizing w with
  | nil => simp [run_nil, calls_init]
  | cons o rest ih =>
    rw [run_cons, ih, step_hw_calls, step_init_complete, calls_init_cons o rest]
    cases w.init_complete <;> cases calls_init [o] <;> cases calls_init rest <;> simp

theorem step_published_of_ne_update (o : Op F) (h : o ≠ Op.update) :
    (step X o w).angle = w.angle ∧ (step X o w).velocity = w.velocity := by
  cases o
  case update => exact absurd rfl h
  case init =>
    cases hc : w.init_complete
    · simp [step, init_of_not_complete X w hc]
    · simp [step, init_of_complete X w hc]
  all_goals simp [step, set_voltage, get_angle, get_velocity, isr_A, isr_B]

theorem run_published_of_no_update (ops : List (Op F)) (h : Op.update ∉ ops) :
    (run X ops w).angle = w.angle ∧ (run X ops w).velocity = w.velocity := by
  induction ops generalizing w with
  | nil => exact ⟨rfl, rfl⟩
  | cons o rest ih =>
    rw [List.mem_cons, not_or] at h
    have h1 := step_published_of_ne_update X w o (fun e => h.1 e.symm)
    have h2 := ih (step X o w) h.2
    rw [run_cons]
    exact ⟨h2.1.trans h1.1, h2.2.trans h1.2⟩

end Facts

/-! ## The estimator's update (lines 78-82) -/

section FusedAngle

set_option maxRecDepth 100000
set_option exponentiation.threshold 512

/-- C1 (amended): for every collaborator behaviour and every prior world
(initialised or not), after `update` the value `get_angle` returns is
`direction * r - p` in the program's scalar arithmetic, where `r` is what
`encoder.get_angle()` returned and `p` what `Imu::get_pitch()` returned in that
call; in binary32, with direction `-1` and `r`, `p` the floats nearest `0.10`
and `0.02`, the fused angle is the float `-16106128 * 2^-27`
(`-0.120000005`, bit pattern `0xbdf5c290`), which lies within one unit in the
last place, `2^-27`, of `-0.12`. -/
theorem update_publishes_fused_angle [Mul F] [Sub F] (X : Externals F Enc Fil Drv Imu)
    (w : World F Enc Fil Drv Imu) :
    (get_angle (update X w)).1
        = X.direction * (X.encoder_get_angle w.encoder).1 - (X.imu_get_pitch w.imu).1
      ∧ ∀ (Y : Externals Binary32 Enc Fil Drv Imu) (u : World Binary32 Enc Fil Drv Imu),
          Y.direction = round32 (-1) 1 →
          (Y.encoder_get_angle u.encoder).1 = round32 10 100 →
          (Y.imu_get_pitch u.imu).1 = round32 2 100 →
          (get_angle (update Y u)).1 = Binary32.finite (-(16106128 * 2 ^ 122))
            ∧ Binary32.toRat (get_angle (update Y u)).1 = some (-1006633 / 8388608)
            ∧ |(-1006633 / 8388608 : ℚ) - (-0.12)| < 1 / 2 ^ 27 := by
  refine ⟨rfl, ?_⟩
  intro Y u hd hr hp
  have hv : (get_angle (update Y u)).1 = Binary32.finite (-(16106128 * 2 ^ 122)) := by
    show Y.direction * (Y.encoder_get_angle u.encoder).1 - (Y.imu_get_pitch u.imu).1 = _
    rw [hd, hr, hp]
    decide
  refine ⟨hv, ?_, ?_⟩
  · rw [hv]
    simp only [Binary32.toRat, Option.some.injEq]
    norm_num
  · rw [abs_lt]
    constructor <;> norm_num

/-- C1 (amended) at a concrete input: direction `-1`, encoder at the float
nearest `0.10`, pitch the float nearest `0.02`, `init` never called. -/
theorem update_publishes_fused_angle_witness :
    (get_angle (update (demo32 (round32 (-1) 1))
        (demo32_world (round32 10 100) (round32 2 100)))).1
      = Binary32.finite (-(16106128 * 2 ^ 122)) :=
  ((update_publishes_fused_angle (demo32 (round32 (-1) 1))
      (demo32_world (round32 10 100) (round32 2 100))).2
    (demo32 (round32 (-1) 1)) (demo32_world (round32 10 100) (round32 2 100))
    (by simp only [demo32]) (by simp only [demo32, demo32_world, World.initial])
    (by simp only [demo32, demo32_world, World.initial])).1

/-- C1 fails as stated: with direction `-1`, raw angle the float nearest `0.10`
(`0x3dcccccd`) and pitch the float nearest `0.02` (`0x3ca3d70a`), the angle
`get_angle` returns after `update` is `-16106128 * 2^-27` (`0xbdf5c290`); it is
not the float nearest `-0.12`, which is `-16106127 * 2^-27` (`0xbdf5c28f`), and
the number it denotes is not `-0.12`. -/
theorem update_fused_angle_binary32_counterexample :
    round32 10 100 = Binary32.finite (13421773 * 2 ^ 122)
      ∧ round32 2 100 = Binary32.finite (10737418 * 2 ^ 120)
      ∧ round32 (-12) 100 = Binary32.finite (-(16106127 * 2 ^ 122))
      ∧ (get_angle (update (demo32 (round32 (-1) 1))
          (demo32_world (round32 10 100) (round32 2 100)))).1
          = Binary32.finite (-(16106128 * 2 ^ 122))
      ∧ (get_angle (update (demo32 (round32 (-1) 1))
          (demo32_world (round32 10 100) (round32 2 100)))).1 ≠ round32 (-12) 100
      ∧ Binary32.toRat (get_angle (update (demo32 (round32 (-1) 1))
          (demo32_world (round32 10 100) (round32 2 100)))).1 ≠ some (-0.12) := by
  have hv : (get_angle (update (demo32 (round32 (-1) 1))
      (demo32_world (round32 10 100) (round32 2 100)))).1
      = Binary32.finite (-(16106128 * 2 ^ 122)) := by
    show round32 (-1) 1 * round32 10 100 - round32 2 100 = _
    decide
  refine ⟨by decide, by decide, by decide, hv, ?_, ?_⟩
  · rw [hv]
    decide
  · rw [hv]
    simp only [Binary32.toRat, ne_eq, Option.some.injEq]
    norm_num

end FusedAngle

/-- C2: `update` calls `angle_diff.update` exactly once, its argument is the
fused angle computed in that same call (the value `get_angle` returns
afterwards), and `get_velocity` afterwards returns exactly the output of that
filter call. -/
theorem update_feeds_filter_once [Mul F] [Sub F] (X : Externals F Enc Fil Drv Imu)
    (w : World F Enc Fil Drv Imu) :
    (update X w).angle_diff_calls = w.angle_diff_calls ++ [(get_angle (update X w)).1]
      ∧ (get_angle (update X w)).1
          = X.direction * (X.encoder_get_angle w.encoder).1 - (X.imu_get_pitch w.imu).1
      ∧ (get_velocity (update X w)).1
          = (X.angle_diff_update w.angle_diff (get_angle (update X w)).1).1
      ∧ (update X w).angle_diff
          = (X.angle_diff_update w.angle_diff (get_angle (update X w)).1).2 :=
  ⟨rfl, rfl, rfl, rfl⟩

/-! ## The voltage command (lines 87-90) -/

/-- C3: for every command `v_cmd` and every world (initialised or not),
`set_voltage` makes exactly one `motor.set_voltage` call, its argument is
`direction * v_cmd` whatever the magnitude of `v_cmd`, and nothing else in the
world changes; with direction `-1` the command `3` reaches the driver as `-3`. -/
theorem set_voltage_forwards_signed [Mul F] (X : Externals F Enc Fil Drv Imu) (v_cmd : F)
    (w : World F Enc Fil Drv Imu) :
    (set_voltage X v_cmd w).motor_calls = w.motor_calls ++ [X.direction * v_cmd]
      ∧ set_voltage X v_cmd w =
          { w with
            motor := X.motor_set_voltage w.motor (X.direction * v_cmd)
            motor_calls := w.motor_calls ++ [X.direction * v_cmd] }
      ∧ ∀ (Y : Externals ℚ Enc Fil Drv Imu) (u : World ℚ Enc Fil Drv Imu),
          Y.direction = -1 →
          (set_voltage Y 3.0 u).motor_calls = u.motor_calls ++ [-3.0]
            ∧ (set_voltage Y 3.0 u).motor = Y.motor_set_voltage u.motor (-3.0) := by
  refine ⟨rfl, rfl, ?_⟩
  intro Y u hd
  have h : Y.direction * 3.0 = -3.0 := by rw [hd]; norm_num
  simp only [set_voltage, h, and_self]

/-- C3 at a concrete input: direction `-1`, command `3.0`, `init` never called. -/
theorem set_voltage_forwards_signed_witness :
    (set_voltage (demo (-1)) 3.0 (demo_world 0 0)).motor_calls = [-3.0]
      ∧ (set_voltage (demo (-1)) 3.0 (demo_world 0 0)).motor = -3.0 :=
  (set_voltage_forwards_signed (demo (-1)) 3.0 (demo_world 0 0)).2.2
    (demo (-1)) (demo_world 0 0) rfl

/-! ## Initialisation (lines 58-73) -/

/-- C4: `init` is idempotent.  In every world two `init` calls, and any larger
number of them, leave exactly the world one call leaves (Arduino call log
included); when the flag is already set `init` returns the world unchanged, so
it makes no Arduino call at all; and starting with the flag clear, any number
of `init` calls, also interleaved with any other calls of the module, adds
exactly one `attachInterrupt` call for each of the two handlers. -/
theorem init_idempotent [Mul F] [Sub F] (X : Externals F Enc Fil Drv Imu)
    (w : World F Enc Fil Drv Imu) :
    init X (init X w) = init X w
      ∧ (∀ n : Nat, (init X)^[n + 1] w = init X w)
      ∧ (w.init_complete = true → init X w = w)
      ∧ (w.init_complete = false → ∀ (n : Nat) (h : Handler),
          attach_count h ((init X)^[n + 1] w).hw_calls = attach_count h w.hw_calls + 1)
      ∧ (w.init_complete = false → ∀ (ops : List (Op F)) (h : Handler), Op.init ∈ ops →
          attach_count h (run X ops w).hw_calls = attach_count h w.hw_calls + 1) := by
  refine ⟨iterate_init X w 1, iterate_init X w, init_of_complete X w, ?_, ?_⟩
  · intro hc n h
    rw [iterate_init, init_of_not_complete X w hc]
    simp [attach_count_append, attach_count_init_sequence]
  · intro hc ops h hmem
    rw [run_hw_calls, hc, (calls_init_iff ops).2 hmem]
    simp [attach_count_append, attach_count_init_sequence]

/-- C4 at concrete inputs: three `init` calls from the start world attach the
channel-A handler once; so does a call sequence with two `init` calls among
other calls; and `init` on an initialised world returns it unchanged. -/
theorem init_idempotent_witness :
    attach_count Handler.isr_A ((init (demo 1))^[3] (demo_world 0 0)).hw_calls = 1
      ∧ attach_count Handler.isr_B
          (run (demo 1) [Op.update, Op.init, Op.isr_A, Op.init, Op.set_voltage 3]
            (demo_world 0 0)).hw_calls = 1
      ∧ init (demo 1) (init (demo 1) (demo_world 0 0)) = init (demo 1) (demo_world 0 0) :=
  ⟨(init_idempotent (demo 1) (demo_world 0 0)).2.2.2.1 rfl 2 Handler.isr_A,
   (init_idempotent (demo 1) (demo_world 0 0)).2.2.2.2 rfl _ Handler.isr_B (by simp),
   (init_idempotent (demo 1) (init (demo 1) (demo_world 0 0))).2.2.1 rfl⟩

/-- C5: when the flag is `false`, `init` makes exactly these Arduino calls, in
this order: `pinMode(8, OUTPUT)`, `digitalWrite(8, HIGH)`,
`attachInterrupt(digitalPinToInterrupt(2), isr_A, CHANGE)`,
`attachInterrupt(digitalPinToInterrupt(3), isr_B, CHANGE)`; it sets the flag to
`true` and changes nothing else. -/
theorem init_first_call_sequence (X : Externals F Enc Fil Drv Imu)
    (w : World F Enc Fil Drv Imu) (h : w.init_complete = false) :
    (init X w).hw_calls = w.hw_calls ++
        [ HwCall.pinMode 8 PinMode.OUTPUT,
          HwCall.digitalWrite 8 PinLevel.HIGH,
          HwCall.attachInterrupt (X.digitalPinToInterrupt 2) Handler.isr_A IntMode.CHANGE,
          HwCall.attachInterrupt (X.digitalPinToInterrupt 3) Handler.isr_B IntMode.CHANGE ]
      ∧ (init X w).init_complete = true
      ∧ init X w = { w with hw_calls := (init X w).hw_calls, init_complete := true }
      ∧ pin_enable = 8 ∧ pin_enc_a = 2 ∧ pin_enc_b = 3 := by
  rw [init_of_not_complete X w h]
  exact ⟨rfl, rfl, rfl, rfl, rfl, rfl⟩

/-- C5 at a concrete input: the first `init` call on a board whose pins 2 and 3
map to interrupts 0 and 1. -/
theorem init_first_call_sequence_witness :
    (demo_world 0 0).init_complete = false
      ∧ (init (demo 1) (demo_world 0 0)).hw_calls =
        [ HwCall.pinMode 8 PinMode.OUTPUT,
          HwCall.digitalWrite 8 PinLevel.HIGH,
          HwCall.attachInterrupt 0 Handler.isr_A IntMode.CHANGE,
          HwCall.attachInterrupt 1 Handler.isr_B IntMode.CHANGE ]
      ∧ (init (demo 1) (demo_world 0 0)).init_complete = true :=
  ⟨rfl, (init_first_call_sequence (demo 1) (demo_world 0 0) rfl).1,
    (init_first_call_sequence (demo 1) (demo_world 0 0) rfl).2.1⟩

/-- C7: the flag starts `false`; after any sequence of calls from any world it
is `true` if it was `true` before, a call other than `init` never changes it,
and it is `true` after every sequence that contains an `init` call. -/
theorem init_flag_monotone [Zero F] [Mul F] [Sub F] (X : Externals F Enc Fil Drv Imu) :
    (∀ (enc : Enc) (fil : Fil) (drv : Drv) (imu : Imu),
        (World.initial enc fil drv imu : World F Enc Fil Drv Imu).init_complete = false)
      ∧ (∀ (ops : List (Op F)) (w : World F Enc Fil Drv Imu),
          w.init_complete = true → (run X ops w).init_complete = true)
      ∧ (∀ (o : Op F) (w : World F Enc Fil Drv Imu),
          o ≠ Op.init → (step X o w).init_complete = w.init_complete)
      ∧ (∀ (ops : List (Op F)) (w : World F Enc Fil Drv Imu),
          Op.init ∉ ops → (run X ops w).init_complete = w.init_complete)
      ∧ (∀ (ops : List (Op F)) (w : World F Enc Fil Drv Imu),
          Op.init ∈ ops → (run X ops w).init_complete = true) := by
  refine ⟨fun _ _ _ _ => rfl, ?_, ?_, ?_, ?_⟩
  · intro ops w h
    rw [run_init_complete, h, Bool.true_or]
  · intro o w h
    rw [step_init_complete]
    cases o <;> first | exact absurd rfl h | simp [calls_init]
  · intro ops w h
    have hc : calls_init ops = false := by
      cases hb : calls_init ops
      · rfl
      · exact absurd ((calls_init_iff ops).1 hb) h
    rw [run_init_complete, hc, Bool.or_false]
  · intro ops w h
    rw [run_init_complete, (calls_init_iff ops).2 h, Bool.or_true]

/-- C7 at concrete inputs: a call sequence with one `init` in the middle ends
with the flag set; one without `init` leaves it clear. -/
theorem init_flag_monotone_witness :
    (run (demo 1) [Op.update, Op.init, Op.isr_B, Op.update, Op.get_angle]
        (demo_world 0 0)).init_complete = true
      ∧ (run (demo 1) [Op.update, Op.isr_A, Op.set_voltage 3, Op.get_velocity]
        (demo_world 0 0)).init_complete = (demo_world 0 0).init_complete
      ∧ (step (demo 1) Op.update (init (demo 1) (demo_world 0 0))).init_complete
        = (init (demo 1) (demo_world 0 0)).init_complete
      ∧ (run (demo 1) [Op.isr_A, Op.update] (init (demo 1) (demo_world 0 0))).init_complete
        = true :=
  ⟨(init_flag_monotone (demo 1)).2.2.2.2 _ (demo_world 0 0) (by simp),
   (init_flag_monotone (demo 1)).2.2.2.1 _ (demo_world 0 0) (by simp),
   (init_flag_monotone (demo 1)).2.2.1 Op.update _ (by simp),
   (init_flag_monotone (demo 1)).2.1 _ _ rfl⟩

/-! ## Accessors (lines 95-106) and the frame of the other functions -/

/-- C6: `get_angle` and `get_velocity` return the stored fields and leave the
whole world as it was, so a second call of either accessor, directly or after
the other accessor, returns the same value; more generally a second call
returns the same value after any calls of the module that do not include
`update`. -/
theorem accessors_pure [Mul F] [Sub F] (X : Externals F Enc Fil Drv Imu)
    (w : World F Enc Fil Drv Imu) :
    get_angle w = (w.angle, w)
      ∧ get_velocity w = (w.velocity, w)
      ∧ (get_angle (get_angle w).2).1 = (get_angle w).1
      ∧ (get_velocity (get_velocity w).2).1 = (get_velocity w).1
      ∧ (get_angle (get_velocity w).2).1 = (get_angle w).1
      ∧ (get_velocity (get_angle w).2).1 = (get_velocity w).1
      ∧ (∀ ops : List (Op F), Op.update ∉ ops →
          (get_angle (run X ops (get_angle w).2)).1 = (get_angle w).1
            ∧ (get_velocity (run X ops (get_velocity w).2)).1 = (get_velocity w).1) :=
  ⟨rfl, rfl, rfl, rfl, rfl, rfl, fun ops h => run_published_of_no_update X w ops h⟩

/-- C6 at a concrete input: after one `update` the angle is read, then other
functions run but not `update`, and the angle read again is the same. -/
theorem accessors_pure_witness :
    (get_angle (run (demo 1) [Op.isr_A, Op.set_voltage 3, Op.init, Op.get_velocity]
        (get_angle (update (demo 1) (demo_world 0.10 0.02))).2)).1
      = (get_angle (update (demo 1) (demo_world 0.10 0.02))).1 :=
  ((accessors_pure (demo 1) (update (demo 1) (demo_world 0.10 0.02))).2.2.2.2.2.2
    [Op.isr_A, Op.set_voltage 3, Op.init, Op.get_velocity] (by simp)).1

/-- C8: `init`, `set_voltage v` for every `v`, `isr_A` and `isr_B` each leave
the angle field, the velocity field and the differentiator filter (its state and
the log of calls made on it) exactly as they were. -/
theorem published_written_only_by_update [Mul F] (X : Externals F Enc Fil Drv Imu)
    (v : F) (w : World F Enc Fil Drv Imu) :
    ((init X w).angle = w.angle ∧ (init X w).velocity = w.velocity
        ∧ (init X w).angle_diff = w.angle_diff
        ∧ (init X w).angle_diff_calls = w.angle_diff_calls)
      ∧ ((set_voltage X v w).angle = w.angle ∧ (set_voltage X v w).velocity = w.velocity
        ∧ (set_voltage X v w).angle_diff = w.angle_diff
        ∧ (set_voltage X v w).angle_diff_calls = w.angle_diff_calls)
      ∧ ((isr_A X w).angle = w.angle ∧ (isr_A X w).velocity = w.velocity
        ∧ (isr_A X w).angle_diff = w.angle_diff
        ∧ (isr_A X w).angle_diff_calls = w.angle_diff_calls)
      ∧ ((isr_B X w).angle = w.angle ∧ (isr_B X w).velocity = w.velocity
        ∧ (isr_B X w).angle_diff = w.angle_diff
        ∧ (isr_B X w).angle_diff_calls = w.angle_diff_calls) := by
  refine ⟨?_, ⟨rfl, rfl, rfl, rfl⟩, ⟨rfl, rfl, rfl, rfl⟩, ⟨rfl, rfl, rfl, rfl⟩⟩
  cases h : w.init_complete
  · rw [init_of_not_complete X w h]
    exact ⟨rfl, rfl, rfl, rfl⟩
  · rw [init_of_complete X w h]
    exact ⟨rfl, rfl, rfl, rfl⟩

/-! ## Interrupt handlers (lines 111-122) -/

/-- C10: `isr_A` makes exactly one call on the encoder, `interrupt_A`, and
`isr_B` exactly one, `interrupt_B`; neither makes an Arduino call, a driver
call, a filter call or an IMU call, and neither changes any other part of the
world. -/
theorem isr_forwards_own_channel (X : Externals F Enc Fil Drv Imu)
    (w : World F Enc Fil Drv Imu) :
    ((isr_A X w).encoder_calls = w.encoder_calls ++ [EncoderCall.interrupt_A]
        ∧ (isr_A X w).encoder = X.encoder_interrupt_A w.encoder
        ∧ (isr_A X w).hw_calls = w.hw_calls
        ∧ (isr_A X w).motor_calls = w.motor_calls ∧ (isr_A X w).motor = w.motor
        ∧ (isr_A X w).angle_diff_calls = w.angle_diff_calls
        ∧ (isr_A X w).angle_diff = w.angle_diff
        ∧ (isr_A X w).imu_calls = w.imu_calls ∧ (isr_A X w).imu = w.imu
        ∧ (isr_A X w).angle = w.angle ∧ (isr_A X w).velocity = w.velocity
        ∧ (isr_A X w).init_complete = w.init_complete)
      ∧ ((isr_B X w).encoder_calls = w.encoder_calls ++ [EncoderCall.interrupt_B]
        ∧ (isr_B X w).encoder = X.encoder_interrupt_B w.encoder
        ∧ (isr_B X w).hw_calls = w.hw_calls
        ∧ (isr_B X w).motor_calls = w.motor_calls ∧ (isr_B X w).motor = w.motor
        ∧ (isr_B X w).angle_diff_calls = w.angle_diff_calls
        ∧ (isr_B X w).angle_diff = w.angle_diff
        ∧ (isr_B X w).imu_calls = w.imu_calls ∧ (isr_B X w).imu = w.imu
        ∧ (isr_B X w).angle = w.angle ∧ (isr_B X w).velocity = w.velocity
        ∧ (isr_B X w).init_complete = w.init_complete) :=
  ⟨⟨rfl, rfl, rfl, rfl, rfl, rfl, rfl, rfl, rfl, rfl, rfl, rfl⟩,
   ⟨rfl, rfl, rfl, rfl, rfl, rfl, rfl, rfl, rfl, rfl, rfl, rfl⟩⟩

/-! ## What a reader can see around `update` -/

/-- C9 fails as stated: in the second control period the world between the two
statements of `update` is observable, and there `get_angle` already returns the
second period's angle `3/100` while `get_velocity` still returns the first
period's velocity `1`; that pair is neither the pair published before the call
`(1/100, 1)` nor the pair published after it `(3/100, 2)`. -/
theorem update_mixed_pair_counterexample :
    update_angle (demo 1) demo_second_period ∈ update_observable (demo 1) demo_second_period
      ∧ published demo_second_period = (1 / 100, 1)
      ∧ published (update_angle (demo 1) demo_second_period) = (3 / 100, 1)
      ∧ published (update (demo 1) demo_second_period) = (3 / 100, 2)
      ∧ ¬ (∀ m ∈ update_observable (demo 1) demo_second_period,
            published m = published demo_second_period
              ∨ published m = published (update (demo 1) demo_second_period)) := by
  have h0 : published demo_second_period = (1 / 100, 1) := by
    simp [demo_second_period, run, step, published, get_angle, get_velocity, update,
      update_velocity, update_angle, isr_A, demo, demo_world, World.initial]
  have h1 : published (update_angle (demo 1) demo_second_period) = (3 / 100, 1) := by
    simp [demo_second_period, run, step, published, get_angle, get_velocity, update,
      update_velocity, update_angle, isr_A, demo, demo_world, World.initial]
    norm_num
  have h2 : published (update (demo 1) demo_second_period) = (3 / 100, 2) := by
    simp [demo_second_period, run, step, published, get_angle, get_velocity, update,
      update_velocity, update_angle, isr_A, demo, demo_world, World.initial]
    norm_num
  refine ⟨by simp [update_observable], h0, h1, h2, ?_⟩
  intro hall
  have hm := hall (update_angle (demo 1) demo_second_period) (by simp [update_observable])
  rw [h0, h1, h2] at hm
  norm_num [Prod.ext_iff] at hm

/-- C9 as amended: once `update` has returned, the published velocity is the
filter output for the very angle that is published with it; the only other
world a reader can observe around the call is the one between its two
statements, where the angle is already the new one and the velocity is still
the one stored before the call. -/
theorem update_publishes_in_two_steps [Mul F] [Sub F] (X : Externals F Enc Fil Drv Imu)
    (w : World F Enc Fil Drv Imu) :
    update_observable X w = [w, update_angle X w, update X w]
      ∧ published (update X w)
        = ((get_angle (update X w)).1,
            (X.angle_diff_update w.angle_diff (get_angle (update X w)).1).1)
      ∧ published (update_angle X w)
        = ((get_angle (update X w)).1, (get_velocity w).1)
      ∧ (get_angle (update X w)).1
        = X.direction * (X.encoder_get_angle w.encoder).1 - (X.imu_get_pitch w.imu).1 :=
  ⟨rfl, rfl, rfl, rfl⟩

end MotorL
